import Mathlib

/-!
Verification of the awsqeapi gateway core against its specification.

Shallow embedding of the relevant source functions:
* `src/services/account_service.py` — `update_account_stats`
* `src/core/context_compressor.py` — `_budget_tokens_estimate`
* `src/core/tokenizer.py` — `count_tokens`

Text is modelled as `List Char` (Python `str`), bytes as `List Nat`.
-/

/-- Account row fields touched by `update_account_stats`
(`accounts` table columns `success_count`, `error_count`,
`quota_exhausted`, `enabled`). -/
structure Account where
  successCount : Nat
  errorCount : Nat
  quotaExhausted : Bool
  enabled : Bool
  deriving DecidableEq, Repr

/-- `update_account_stats` (src/services/account_service.py, lines 373-407):
the effect of the single atomic UPDATE on one account row.
`M` is the environment threshold `MAX_ERROR_COUNT`.
The SQL `CASE WHEN error_count+1 >= ? THEN 0 ELSE enabled END` reads the
pre-update `error_count`, exactly as modelled here. -/
def update_account_stats (M : Nat) (acc : Account) (success : Bool)
    (quota_exhausted : Bool) : Account :=
  if success then
    { acc with successCount := acc.successCount + 1, errorCount := 0,
               quotaExhausted := false }
  else if quota_exhausted then
    { acc with quotaExhausted := true, enabled := false }
  else
    { acc with errorCount := acc.errorCount + 1,
               enabled := if acc.errorCount + 1 ≥ M then false else acc.enabled }

/-- `count_tokens` (src/core/tokenizer.py, lines 15-22) with
`apply_multiplier = False` as called from the compressor; the external
tiktoken `ENCODING.encode` is a parameter.  Empty text returns 0 without
encoding. -/
def count_tokens (encode : List Char → List Nat) (text : List Char) : Nat :=
  if text = [] then 0 else (encode text).length

/-- `_budget_tokens_estimate` (src/core/context_compressor.py, lines 6-12):
empty text gives 0; raw length ≥ 20000 short-circuits to `len(text)`
(the Python character count); otherwise the tokenizer is consulted. -/
def budget_tokens_estimate (encode : List Char → List Nat)
    (text : List Char) : Nat :=
  if text = [] then 0
  else if 20000 ≤ text.length then text.length
  else count_tokens encode text

/-- Modelled from the spec: the "byte length" of a text, i.e. the length of
its UTF-8 encoding, which the spec says is used as the budget estimate for
huge payloads.  (The source instead uses the character count `len(text)`.) -/
def utf8CharBytes (c : Char) : Nat :=
  if c.toNat < 0x80 then 1
  else if c.toNat < 0x800 then 2
  else if c.toNat < 0x10000 then 3
  else 4

/-- Modelled from the spec: UTF-8 byte length of a whole text. -/
def spec_byte_length (text : List Char) : Nat :=
  (text.map utf8CharBytes).sum

/-- `KeyStatus` (src/security/advanced.py). -/
inductive KeyStatus
  | active
  | inactive
  | compromised
  | expired
  deriving DecidableEq, Repr

/-- The fields of `SecureKeyInfo` (src/security/advanced.py) read or written
by the check pipeline of `verify_key` after the key record has been located
and its hash verified.  IPs and user agents are strings (`List Char`);
`none` models Python `None`. -/
structure SecureKeyInfo where
  status : KeyStatus
  expiresAt : Option Nat
  maxUses : Option Nat
  usageCount : Nat
  lastUsed : Option Nat
  allowedIps : List (List Char)
  allowedUserAgents : List (List Char)
  deriving DecidableEq, Repr

/-- Request-side context of one `verify_key` call: the clock, the caller's
IP and User-Agent (Python `None` ↦ `none`), and the outcomes of the two
stateful auditor calls `_check_rate_limit` and `_is_blocked`. -/
structure VerifyCtx where
  now : Nat
  clientIp : Option (List Char)
  userAgent : Option (List Char)
  rateLimitOk : Bool
  ipBlocked : Bool
  deriving DecidableEq, Repr

/-- Python `needle in hay` for strings: index of the first occurrence of
`needle` in `hay` (`str.find`, `none` for Python's `-1`). -/
def findSub : List Char → List Char → Option Nat
  | [], needle => if needle = [] then some 0 else none
  | a :: t, needle =>
    if needle <+: (a :: t) then some 0
    else (findSub t needle).map (· + 1)

/-- Python substring containment `needle in hay`. -/
def containsSub (hay needle : List Char) : Bool :=
  (findSub hay needle).isSome

/-- Python `str.lower()` (per-character, as used on ASCII user agents). -/
def lowerStr (s : List Char) : List Char :=
  s.map Char.toLower

/-- `if key_info.expires_at and datetime.now(timezone.utc) > expires_at`
(src/security/advanced.py line 621). -/
def expires_check (expiresAt : Option Nat) (now : Nat) : Bool :=
  match expiresAt with
  | none => false
  | some t => decide (now > t)

/-- `if key_info.max_uses and key_info.usage_count >= key_info.max_uses`
(src/security/advanced.py line 626): `None` and `0` are both falsy. -/
def max_uses_check (maxUses : Option Nat) (usageCount : Nat) : Bool :=
  match maxUses with
  | none => false
  | some m => if m = 0 then false else decide (usageCount ≥ m)

/-- `if key_info.allowed_ips and client_ip: if client_ip not in allowed_ips`
(src/security/advanced.py lines 632-634); an empty whitelist or an absent
or empty client IP skips the check. -/
def ip_rejected (allowedIps : List (List Char)) (clientIp : Option (List Char)) : Bool :=
  match clientIp with
  | none => false
  | some ip =>
    if allowedIps = [] ∨ ip = [] then false
    else decide (ip ∉ allowedIps)

/-- `any(ua.lower() in user_agent.lower() for ua in allowed_user_agents)`
(src/security/advanced.py line 639). -/
def ua_match (allowed : List (List Char)) (userAgent : List Char) : Bool :=
  allowed.any (fun ua => containsSub (lowerStr userAgent) (lowerStr ua))

/-- `if key_info.allowed_user_agents and user_agent: ... if not ua_match`
(src/security/advanced.py lines 638-641). -/
def ua_rejected (allowed : List (List Char)) (userAgent : Option (List Char)) : Bool :=
  match userAgent with
  | none => false
  | some ua =>
    if allowed = [] ∨ ua = [] then false
    else !(ua_match allowed ua)

/-- The check pipeline of `verify_key` (src/security/advanced.py lines
617-658), entered once the key record is found and its hash verified.
Returns (result, updated key record): rejections return `none`; the
expiry and usage-limit rejections mutate `status`; success stamps
`last_used` and increments `usage_count`.  The `_record_failed_attempt`
calls on the IP/UA rejection paths only touch the auditor's
failed-attempts map (and, past a threshold, `status`), never
`usage_count` or `last_used`, and are not modelled. -/
def verify_key_checks (k : SecureKeyInfo) (ctx : VerifyCtx) :
    Option SecureKeyInfo × SecureKeyInfo :=
  if k.status ≠ KeyStatus.active then (none, k)
  else if expires_check k.expiresAt ctx.now then
    (none, { k with status := KeyStatus.expired })
  else if max_uses_check k.maxUses k.usageCount then
    (none, { k with status := KeyStatus.inactive })
  else if ip_rejected k.allowedIps ctx.clientIp then (none, k)
  else if ua_rejected k.allowedUserAgents ctx.userAgent then (none, k)
  else if !ctx.rateLimitOk then (none, k)
  else if ctx.ipBlocked then (none, k)
  else
    let k' := { k with lastUsed := some ctx.now, usageCount := k.usageCount + 1 }
    (some k', k')

/-- The key record after one `verify_key` call. -/
def verify_state (ctx : VerifyCtx) (k : SecureKeyInfo) : SecureKeyInfo :=
  (verify_key_checks k ctx).2

/-- Any rejected `verify_key` call leaves `usage_count` and `last_used`
untouched (the expiry and usage-limit branches only change `status`). -/
lemma verify_none_frame (k : SecureKeyInfo) (ctx : VerifyCtx)
    (h : (verify_key_checks k ctx).1 = none) :
    (verify_key_checks k ctx).2.usageCount = k.usageCount ∧
    (verify_key_checks k ctx).2.lastUsed = k.lastUsed := by
  unfold verify_key_checks at *
  split_ifs at * <;> simp_all

/-- When every check passes, `verify_key` returns the key with `usage_count`
incremented and `last_used` stamped. -/
lemma verify_success_step (k : SecureKeyInfo) (ctx : VerifyCtx)
    (hs : k.status = KeyStatus.active)
    (he : expires_check k.expiresAt ctx.now = false)
    (hm : max_uses_check k.maxUses k.usageCount = false)
    (hip : ip_rejected k.allowedIps ctx.clientIp = false)
    (hua : ua_rejected k.allowedUserAgents ctx.userAgent = false)
    (hrl : ctx.rateLimitOk = true)
    (hbl : ctx.ipBlocked = false) :
    verify_key_checks k ctx =
      (some { k with lastUsed := some ctx.now, usageCount := k.usageCount + 1 },
       { k with lastUsed := some ctx.now, usageCount := k.usageCount + 1 }) := by
  simp [verify_key_checks, hs, he, hm, hip, hua, hrl, hbl]

/-- When the usage limit fires, `verify_key` rejects and marks the key
inactive. -/
lemma verify_maxuses_step (k : SecureKeyInfo) (ctx : VerifyCtx)
    (hs : k.status = KeyStatus.active)
    (he : expires_check k.expiresAt ctx.now = false)
    (hm : max_uses_check k.maxUses k.usageCount = true) :
    verify_key_checks k ctx = (none, { k with status := KeyStatus.inactive }) := by
  simp [verify_key_checks, hs, he, hm]

/-- C1: `update_account_stats` — success increments `successCount`, zeroes
`errorCount` and clears `quotaExhausted`; failure with quota exhaustion sets
`quotaExhausted` and disables without touching `errorCount`; any other
failure increments `errorCount` and disables exactly when the incremented
count reaches `MAX_ERROR_COUNT` (otherwise `enabled` is untouched). -/
theorem update_account_stats_spec (M : Nat) (acc : Account) (qe : Bool) :
    ((update_account_stats M acc true qe).successCount = acc.successCount + 1 ∧
     (update_account_stats M acc true qe).errorCount = 0 ∧
     (update_account_stats M acc true qe).quotaExhausted = false ∧
     (update_account_stats M acc true qe).enabled = acc.enabled) ∧
    ((update_account_stats M acc false true).quotaExhausted = true ∧
     (update_account_stats M acc false true).enabled = false ∧
     (update_account_stats M acc false true).errorCount = acc.errorCount ∧
     (update_account_stats M acc false true).successCount = acc.successCount) ∧
    ((update_account_stats M acc false false).errorCount = acc.errorCount + 1 ∧
     (update_account_stats M acc false false).enabled =
       (if acc.errorCount + 1 ≥ M then false else acc.enabled) ∧
     (update_account_stats M acc false false).successCount = acc.successCount ∧
     (update_account_stats M acc false false).quotaExhausted = acc.quotaExhausted) := by
  refine ⟨⟨rfl, rfl, rfl, rfl⟩, ⟨rfl, rfl, rfl, rfl⟩, ⟨rfl, ?_, rfl, rfl⟩⟩
  simp [update_account_stats]

/-- C9 counterexample: for a text of 20000 three-byte characters the
estimate returns the character count 20000, not the UTF-8 byte length
60000 claimed by the spec. -/
theorem budget_estimate_not_byte_length :
    budget_tokens_estimate (fun _ => []) (List.replicate 20000 'あ') = 20000 ∧
    spec_byte_length (List.replicate 20000 'あ') = 60000 := by
  constructor
  · have hne : (List.replicate 20000 'あ') ≠ [] := by
      intro he
      have hl := congrArg List.length he
      rw [List.length_replicate] at hl
      exact absurd hl (by decide)
    rw [budget_tokens_estimate, if_neg hne, List.length_replicate,
        if_pos (le_refl 20000)]
  · have hc : utf8CharBytes 'あ' = 3 := by decide
    rw [spec_byte_length, List.map_replicate, hc, List.sum_replicate,
        smul_eq_mul]

/-- C9 (amended): for text of length ≥ 20000 the estimate returns the
character count (`len(text)`) and is independent of the tokenizer; for
shorter text it returns the tokenizer's count. -/
theorem budget_estimate_spec (encode encode2 : List Char → List Nat)
    (text : List Char) :
    (20000 ≤ text.length →
      budget_tokens_estimate encode text = text.length ∧
      budget_tokens_estimate encode text = budget_tokens_estimate encode2 text) ∧
    (text.length < 20000 →
      budget_tokens_estimate encode text = count_tokens encode text) := by
  constructor
  · intro h
    have hne : text ≠ [] := by
      intro he
      rw [he] at h
      exact absurd h (by decide)
    constructor <;>
      simp only [budget_tokens_estimate, if_neg hne, if_pos h]
  · intro h
    by_cases hne : text = []
    · rw [budget_tokens_estimate, if_pos hne, count_tokens, if_pos hne]
    · rw [budget_tokens_estimate, if_neg hne, if_neg (Nat.not_le.mpr h)]

/-- Witness for C9's amended theorem at concrete inputs. -/
theorem budget_estimate_spec_witness :
    budget_tokens_estimate (fun _ => [0]) (List.replicate 20000 'a') = 20000 ∧
    budget_tokens_estimate (fun _ => [0]) ['a'] =
      count_tokens (fun _ => [0]) ['a'] := by
  constructor
  · have h := (budget_estimate_spec (fun _ => [0]) (fun _ => [0, 1])
      (List.replicate 20000 'a')).1 (by rw [List.length_replicate])
    rw [h.1, List.length_replicate]
  · exact (budget_estimate_spec (fun _ => [0]) (fun _ => [0, 1]) ['a']).2
      (by decide)

/-- C4: a `verify_key` call that passes status, expiry and usage-limit
checks but is rejected for IP whitelist, User-Agent whitelist or the
per-minute rate limit leaves `usage_count` and `last_used` unchanged;
moreover every rejected call, whatever the cause, leaves `usage_count`
unchanged — it is incremented only on success. -/
theorem verify_rejected_frame (k : SecureKeyInfo) (ctx : VerifyCtx)
    (hs : k.status = KeyStatus.active)
    (he : expires_check k.expiresAt ctx.now = false)
    (hm : max_uses_check k.maxUses k.usageCount = false)
    (hrej : ip_rejected k.allowedIps ctx.clientIp = true ∨
            ua_rejected k.allowedUserAgents ctx.userAgent = true ∨
            ctx.rateLimitOk = false) :
    (verify_key_checks k ctx).1 = none ∧
    (verify_key_checks k ctx).2.usageCount = k.usageCount ∧
    (verify_key_checks k ctx).2.lastUsed = k.lastUsed ∧
    ∀ k2 ctx2, (verify_key_checks k2 ctx2).1 = none →
      (verify_key_checks k2 ctx2).2.usageCount = k2.usageCount := by
  have hnone : (verify_key_checks k ctx).1 = none := by
    unfold verify_key_checks
    split_ifs <;> first
      | rfl
      | (rcases hrej with h | h | h <;> simp_all)
  exact ⟨hnone, (verify_none_frame k ctx hnone).1,
    (verify_none_frame k ctx hnone).2,
    fun k2 ctx2 h2 => (verify_none_frame k2 ctx2 h2).1⟩

/-- Witness for C4 at a concrete key and request: the client IP is outside
the whitelist, so the call is rejected and the counters stay put. -/
theorem verify_rejected_frame_witness :
    (verify_key_checks
      { status := KeyStatus.active, expiresAt := none, maxUses := none,
        usageCount := 7, lastUsed := none,
        allowedIps := ["10.0.0.1".toList], allowedUserAgents := [] }
      { now := 3, clientIp := some "10.0.0.2".toList, userAgent := none,
        rateLimitOk := true, ipBlocked := false }).1 = none ∧
    (verify_key_checks
      { status := KeyStatus.active, expiresAt := none, maxUses := none,
        usageCount := 7, lastUsed := none,
        allowedIps := ["10.0.0.1".toList], allowedUserAgents := [] }
      { now := 3, clientIp := some "10.0.0.2".toList, userAgent := none,
        rateLimitOk := true, ipBlocked := false }).2.usageCount = 7 := by
  have h := verify_rejected_frame
    { status := KeyStatus.active, expiresAt := none, maxUses := none,
      usageCount := 7, lastUsed := none,
      allowedIps := ["10.0.0.1".toList], allowedUserAgents := [] }
    { now := 3, clientIp := some "10.0.0.2".toList, userAgent := none,
      rateLimitOk := true, ipBlocked := false }
    rfl (by decide) (by decide) (Or.inl (by decide))
  exact ⟨h.1, h.2.1⟩

/-- C10: a falsy `max_uses` (`None` or `0`) means unlimited use: the usage
check never fires at any `usage_count`, the key never transitions to
inactive, and a call passing the remaining checks succeeds. -/
theorem max_uses_falsy_unlimited (k : SecureKeyInfo) (ctx : VerifyCtx)
    (h : k.maxUses = none ∨ k.maxUses = some 0) :
    (∀ u, max_uses_check k.maxUses u = false) ∧
    ((verify_key_checks k ctx).2.status = KeyStatus.inactive →
      k.status = KeyStatus.inactive) ∧
    (k.status = KeyStatus.active →
      expires_check k.expiresAt ctx.now = false →
      ip_rejected k.allowedIps ctx.clientIp = false →
      ua_rejected k.allowedUserAgents ctx.userAgent = false →
      ctx.rateLimitOk = true → ctx.ipBlocked = false →
      (verify_key_checks k ctx).1 =
        some { k with lastUsed := some ctx.now,
                      usageCount := k.usageCount + 1 }) := by
  have hmu : ∀ u, max_uses_check k.maxUses u = false := by
    rcases h with h | h <;> intro u <;> simp [max_uses_check, h]
  refine ⟨hmu, ?_, ?_⟩
  · intro hin
    unfold verify_key_checks at hin
    split_ifs at hin <;> simp_all [hmu k.usageCount]
  · intro hs he hip hua hrl hbl
    rw [verify_success_step k ctx hs he (hmu k.usageCount) hip hua hrl hbl]

/-- Witness for C10 at a concrete key with `max_uses = None` and a huge
usage count: the usage check stays off and verification succeeds. -/
theorem max_uses_falsy_unlimited_witness :
    max_uses_check
      ({ status := KeyStatus.active, expiresAt := none, maxUses := none,
         usageCount := 1000000, lastUsed := none, allowedIps := [],
         allowedUserAgents := [] } : SecureKeyInfo).maxUses 5000000 = false ∧
    (verify_key_checks
      { status := KeyStatus.active, expiresAt := none, maxUses := none,
        usageCount := 1000000, lastUsed := none, allowedIps := [],
        allowedUserAgents := [] }
      { now := 9, clientIp := none, userAgent := none,
        rateLimitOk := true, ipBlocked := false }).1 =
      some { status := KeyStatus.active, expiresAt := none, maxUses := none,
             usageCount := 1000001, lastUsed := some 9, allowedIps := [],
             allowedUserAgents := [] } := by
  have h := max_uses_falsy_unlimited
    { status := KeyStatus.active, expiresAt := none, maxUses := none,
      usageCount := 1000000, lastUsed := none, allowedIps := [],
      allowedUserAgents := [] }
    { now := 9, clientIp := none, userAgent := none,
      rateLimitOk := true, ipBlocked := false }
    (Or.inl rfl)
  exact ⟨h.1 5000000,
    h.2.2 rfl (by decide) (by decide) (by decide) rfl rfl⟩

/-- C3: with `max_uses = N ≥ 1` and `usage_count = 0`, verification
attempts that pass all other checks succeed exactly `N` times, each
incrementing `usage_count` by one; the `(N+1)`-th attempt is rejected and
marks the key inactive. -/
theorem max_uses_exhaustion (k : SecureKeyInfo) (ctx : VerifyCtx) (N : Nat)
    (hN : 1 ≤ N)
    (hs : k.status = KeyStatus.active)
    (hu : k.usageCount = 0)
    (hm : k.maxUses = some N)
    (he : expires_check k.expiresAt ctx.now = false)
    (hip : ip_rejected k.allowedIps ctx.clientIp = false)
    (hua : ua_rejected k.allowedUserAgents ctx.userAgent = false)
    (hrl : ctx.rateLimitOk = true)
    (hbl : ctx.ipBlocked = false) :
    (∀ i, i < N →
      (verify_key_checks ((verify_state ctx)^[i] k) ctx).1.isSome = true ∧
      ((verify_state ctx)^[i + 1] k).usageCount = i + 1) ∧
    (verify_key_checks ((verify_state ctx)^[N] k) ctx).1 = none ∧
    ((verify_state ctx)^[N + 1] k).status = KeyStatus.inactive := by
  have inv : ∀ i, i ≤ N →
      ((verify_state ctx)^[i] k).status = KeyStatus.active ∧
      ((verify_state ctx)^[i] k).usageCount = i ∧
      ((verify_state ctx)^[i] k).maxUses = some N ∧
      ((verify_state ctx)^[i] k).expiresAt = k.expiresAt ∧
      ((verify_state ctx)^[i] k).allowedIps = k.allowedIps ∧
      ((verify_state ctx)^[i] k).allowedUserAgents = k.allowedUserAgents := by
    intro i
    induction i with
    | zero =>
      intro _
      simp only [Function.iterate_zero, id_eq]
      refine ⟨hs, hu, hm, ?_, ?_, ?_⟩ <;> first | rfl | trivial
    | succ n ih =>
      intro hn1
      obtain ⟨i1, i2, i3, i4, i5, i6⟩ := ih (Nat.le_of_succ_le hn1)
      have hlt : n < N := Nat.lt_of_succ_le hn1
      have hmchk :
          max_uses_check ((verify_state ctx)^[n] k).maxUses
            ((verify_state ctx)^[n] k).usageCount = false := by
        rw [i3, i2]
        simp only [max_uses_check]
        rw [if_neg (by omega)]
        simp [Nat.not_le.mpr hlt]
      rw [Function.iterate_succ_apply']
      rw [show verify_state ctx ((verify_state ctx)^[n] k) =
        (verify_key_checks ((verify_state ctx)^[n] k) ctx).2 from rfl]
      rw [verify_success_step _ ctx i1 (i4 ▸ he) hmchk (i5 ▸ hip)
        (i6 ▸ hua) hrl hbl]
      exact ⟨i1, by rw [i2], i3, i4, i5, i6⟩
  have hstepN :
      verify_key_checks ((verify_state ctx)^[N] k) ctx =
        (none, { (verify_state ctx)^[N] k with status := KeyStatus.inactive }) := by
    obtain ⟨i1, i2, i3, i4, i5, i6⟩ := inv N (le_refl N)
    have hmchk :
        max_uses_check ((verify_state ctx)^[N] k).maxUses
          ((verify_state ctx)^[N] k).usageCount = true := by
      rw [i3, i2]
      simp only [max_uses_check]
      rw [if_neg (by omega)]
      simp
    exact verify_maxuses_step _ ctx i1 (i4 ▸ he) hmchk
  refine ⟨?_, by rw [hstepN], ?_⟩
  · intro i hi
    obtain ⟨i1, i2, i3, i4, i5, i6⟩ := inv i (Nat.le_of_lt hi)
    have hmchk :
        max_uses_check ((verify_state ctx)^[i] k).maxUses
          ((verify_state ctx)^[i] k).usageCount = false := by
      rw [i3, i2]
      simp only [max_uses_check]
      rw [if_neg (by omega)]
      simp [Nat.not_le.mpr hi]
    constructor
    · rw [verify_success_step _ ctx i1 (i4 ▸ he) hmchk (i5 ▸ hip)
        (i6 ▸ hua) hrl hbl]
      rfl
    · exact (inv (i + 1) (Nat.succ_le_of_lt hi)).2.1
  · rw [Function.iterate_succ_apply']
    rw [show verify_state ctx ((verify_state ctx)^[N] k) =
      (verify_key_checks ((verify_state ctx)^[N] k) ctx).2 from rfl]
    rw [hstepN]

/-- Witness for C3 at `N = 1`: one success, then rejection with the key
marked inactive. -/
theorem max_uses_exhaustion_witness :
    (verify_key_checks
      ((verify_state
        { now := 5, clientIp := none, userAgent := none,
          rateLimitOk := true, ipBlocked := false })^[0]
        { status := KeyStatus.active, expiresAt := none, maxUses := some 1,
          usageCount := 0, lastUsed := none, allowedIps := [],
          allowedUserAgents := [] })
      { now := 5, clientIp := none, userAgent := none,
        rateLimitOk := true, ipBlocked := false }).1.isSome = true ∧
    ((verify_state
      { now := 5, clientIp := none, userAgent := none,
        rateLimitOk := true, ipBlocked := false })^[2]
      { status := KeyStatus.active, expiresAt := none, maxUses := some 1,
        usageCount := 0, lastUsed := none, allowedIps := [],
        allowedUserAgents := [] }).status = KeyStatus.inactive := by
  have h := max_uses_exhaustion
    { status := KeyStatus.active, expiresAt := none, maxUses := some 1,
      usageCount := 0, lastUsed := none, allowedIps := [],
      allowedUserAgents := [] }
    { now := 5, clientIp := none, userAgent := none,
      rateLimitOk := true, ipBlocked := false }
    1 (by decide) rfl rfl rfl (by decide) (by decide) (by decide) rfl rfl
  exact ⟨(h.1 0 (by decide)).1, h.2.2⟩

/-- The case-3 overlap scan `for length in range(max_overlap, 0, -1)`:
the largest `length ≤ bound` with `previous.endswith(current[:length])`. -/
def bestOverlap (previous current : List Char) : Nat → Option Nat
  | 0 => none
  | l + 1 =>
    if (current.take (l + 1)) <:+ previous then some (l + 1)
    else bestOverlap previous current l

/-- `delta_by_prefix` (src/core/delta_utils.py, lines 11-78).  Case 1:
`current` starts with `previous`; case 2: `previous` occurs inside
`current` at index > 0 with new content after it; case 3: longest overlap
of `previous`'s suffix with `current`'s start; case 4: concatenate.
The intermediate `Option` mirrors the fall-through of case 2's inner
`if delta:` guard. -/
def deltaByPrefix (previous current : List Char) : List Char × List Char :=
  if current = [] then (previous, [])
  else if previous = [] then (current, current)
  else if previous <+: current then
    let delta := current.drop previous.length
    if delta = [] then (previous, []) else (current, delta)
  else
    let case2 : Option (List Char × List Char) :=
      match findSub current previous with
      | none => none
      | some idx =>
        if 0 < idx ∧ previous.length < current.length then
          let delta := current.drop (idx + previous.length)
          if delta = [] then none else some (previous ++ delta, delta)
        else none
    match case2 with
    | some r => r
    | none =>
      match bestOverlap previous current (min previous.length current.length) with
      | some l => (previous ++ current.drop l, current.drop l)
      | none => (previous ++ current, current)

/-- `_delta_by_prefix` (src/integrations/replicate.py, lines 479-495):
same contract but fragments shorter than 32 characters are treated as
additive, and the overlap scan is capped at 4096. -/
def replDeltaByPrefix (previous current : List Char) : List Char × List Char :=
  if current = [] then (previous, [])
  else if previous = [] then (current, current)
  else if previous <+: current then (current, current.drop previous.length)
  else if current.length < 32 then (previous ++ current, current)
  else
    match bestOverlap previous current (min (min previous.length current.length) 4096) with
    | some l => (previous ++ current.drop l, current.drop l)
    | none => (previous ++ current, current)

/-- Feeding a sequence of `assistantResponseEvent.content` values through
`delta_by_prefix`, threading the accumulated previous content; returns the
final accumulated content and the emitted deltas. -/
def feedContents (previous : List Char) : List (List Char) → List Char × List (List Char)
  | [] => (previous, [])
  | c :: rest =>
    let pd := deltaByPrefix previous c
    let fr := feedContents pd.1 rest
    (fr.1, pd.2 :: fr.2)

/-- The returned new-previous is always the old previous extended by the
returned delta. -/
lemma deltaByPrefix_fst (p c : List Char) :
    (deltaByPrefix p c).1 = p ++ (deltaByPrefix p c).2 := by
  by_cases h1 : c = []
  · simp [deltaByPrefix, h1]
  · by_cases h2 : p = []
    · simp [deltaByPrefix, h1, h2]
    · by_cases h3 : p <+: c
      · obtain ⟨t, rfl⟩ := h3
        by_cases h4 : (p ++ t).drop p.length = []
        · simp [deltaByPrefix, h1, h2, List.prefix_append, h4]
        · rw [List.drop_left] at h4
          simp [deltaByPrefix, h1, h2, List.prefix_append, h4, List.drop_left]
      · simp only [deltaByPrefix, if_neg h1, if_neg h2, if_neg h3]
        rcases hf : findSub c p with _ | idx
        · rcases hov : bestOverlap p c (min p.length c.length) with _ | l <;>
            simp [hf, hov]
        · by_cases h5 : 0 < idx ∧ p.length < c.length
          · by_cases h6 : c.drop (idx + p.length) = []
            · rcases hov : bestOverlap p c (min p.length c.length) with _ | l <;>
                simp [hf, h5, h6, hov]
            · simp [hf, h5, h6]
          · rcases hov : bestOverlap p c (min p.length c.length) with _ | l <;>
              simp [hf, h5, hov]

/-- The returned delta is always a suffix of (or equal to) `current`. -/
lemma deltaByPrefix_snd_suffix (p c : List Char) :
    (deltaByPrefix p c).2 <:+ c := by
  by_cases h1 : c = []
  · simp [deltaByPrefix, h1]
  · by_cases h2 : p = []
    · simp [deltaByPrefix, h1, h2]
    · by_cases h3 : p <+: c
      · by_cases h4 : c.drop p.length = []
        · simp [deltaByPrefix, h1, h2, h3, h4]
        · simp [deltaByPrefix, h1, h2, h3, h4, List.drop_suffix]
      · simp only [deltaByPrefix, if_neg h1, if_neg h2, if_neg h3]
        rcases hf : findSub c p with _ | idx
        · rcases hov : bestOverlap p c (min p.length c.length) with _ | l <;>
            simp [hf, hov, List.drop_suffix]
        · by_cases h5 : 0 < idx ∧ p.length < c.length
          · by_cases h6 : c.drop (idx + p.length) = []
            · rcases hov : bestOverlap p c (min p.length c.length) with _ | l <;>
                simp [hf, h5, h6, hov, List.drop_suffix]
            · simp [hf, h5, h6, List.drop_suffix]
          · rcases hov : bestOverlap p c (min p.length c.length) with _ | l <;>
              simp [hf, h5, hov, List.drop_suffix]

/-- Repeating the same content yields an empty delta. -/
lemma deltaByPrefix_idem (p : List Char) : deltaByPrefix p p = (p, []) := by
  by_cases h : p = []
  · simp [deltaByPrefix, h]
  · simp [deltaByPrefix, h, List.prefix_refl, List.drop_length]

/-- Same prefix-extension law for the replicate variant. -/
lemma replDeltaByPrefix_fst (p c : List Char) :
    (replDeltaByPrefix p c).1 = p ++ (replDeltaByPrefix p c).2 := by
  by_cases h1 : c = []
  · simp [replDeltaByPrefix, h1]
  · by_cases h2 : p = []
    · simp [replDeltaByPrefix, h1, h2]
    · by_cases h3 : p <+: c
      · obtain ⟨t, rfl⟩ := h3
        simp [replDeltaByPrefix, h1, h2, List.prefix_append, List.drop_left]
      · by_cases h4 : c.length < 32
        · simp [replDeltaByPrefix, h1, h2, h3, h4]
        · simp only [replDeltaByPrefix, if_neg h1, if_neg h2, if_neg h3,
            if_neg (by omega : ¬ c.length < 32)]
          rcases hov : bestOverlap p c (min (min p.length c.length) 4096) with _ | l <;>
            simp [hov]

/-- Same suffix law for the replicate variant. -/
lemma replDeltaByPrefix_snd_suffix (p c : List Char) :
    (replDeltaByPrefix p c).2 <:+ c := by
  by_cases h1 : c = []
  · simp [replDeltaByPrefix, h1]
  · by_cases h2 : p = []
    · simp [replDeltaByPrefix, h1, h2]
    · by_cases h3 : p <+: c
      · simp [replDeltaByPrefix, h1, h2, h3, List.drop_suffix]
      · by_cases h4 : c.length < 32
        · simp [replDeltaByPrefix, h1, h2, h3, h4]
        · simp only [replDeltaByPrefix, if_neg h1, if_neg h2, if_neg h3,
            if_neg (by omega : ¬ c.length < 32)]
          rcases hov : bestOverlap p c (min (min p.length c.length) 4096) with _ | l <;>
            simp [hov, List.drop_suffix]

/-- Idempotence for the replicate variant. -/
lemma replDeltaByPrefix_idem (p : List Char) : replDeltaByPrefix p p = (p, []) := by
  by_cases h : p = []
  · simp [replDeltaByPrefix, h]
  · simp [replDeltaByPrefix, h, List.prefix_refl, List.drop_length]

/-- The accumulated content always equals the starting content plus the
concatenation of all emitted deltas. -/
lemma feedContents_concat (p : List Char) (cs : List (List Char)) :
    (feedContents p cs).1 = p ++ (feedContents p cs).2.flatten := by
  induction cs generalizing p with
  | nil => simp [feedContents]
  | cons c rest ih =>
    simp only [feedContents, List.flatten_cons]
    rw [ih, ← List.append_assoc, ← deltaByPrefix_fst p c]

/-- C2: for every (prev, curr) in both delta implementations, the returned
new-previous equals prev ++ delta (hence the concatenation of the deltas
of any content sequence equals the final accumulated content), each delta
is a suffix of or equal to curr, and an identical repeat emits an empty
delta. -/
theorem delta_stream_spec :
    (∀ p c, (deltaByPrefix p c).1 = p ++ (deltaByPrefix p c).2 ∧
            (deltaByPrefix p c).2 <:+ c) ∧
    (∀ p, deltaByPrefix p p = (p, [])) ∧
    (∀ cs, (feedContents [] cs).1 = (feedContents [] cs).2.flatten) ∧
    (∀ p c, (replDeltaByPrefix p c).1 = p ++ (replDeltaByPrefix p c).2 ∧
            (replDeltaByPrefix p c).2 <:+ c) ∧
    (∀ p, replDeltaByPrefix p p = (p, [])) := by
  refine ⟨fun p c => ⟨deltaByPrefix_fst p c, deltaByPrefix_snd_suffix p c⟩,
    deltaByPrefix_idem, fun cs => ?_,
    fun p c => ⟨replDeltaByPrefix_fst p c, replDeltaByPrefix_snd_suffix p c⟩,
    replDeltaByPrefix_idem⟩
  simpa using feedContents_concat [] cs

/-- C5 counterexample: the core `delta_by_prefix` (src/core/delta_utils.py)
has no small-fragment rule — on prev="abcdef", curr="fgh" (length 3 < 32,
not a prefix extension) it merges by longest overlap and emits delta "gh"
rather than treating curr as additive. -/
theorem delta_small_fragment_cex :
    deltaByPrefix "abcdef".toList "fgh".toList =
      ("abcdefgh".toList, "gh".toList) ∧
    deltaByPrefix "abcdef".toList "fgh".toList ≠
      ("abcdef".toList ++ "fgh".toList, "fgh".toList) := by
  constructor <;> decide

/-- C5 (amended): the small-fragment additive rule holds for the replicate
integration's `_delta_by_prefix` only — for non-empty prev and non-empty
curr of length < 32 that does not start with prev, it returns
(prev ++ curr, curr), skipping the longest-overlap merge. -/
theorem replDelta_small_fragment (p c : List Char)
    (hp : p ≠ []) (hc : c ≠ []) (hlen : c.length < 32) (hpre : ¬ p <+: c) :
    replDeltaByPrefix p c = (p ++ c, c) := by
  simp [replDeltaByPrefix, hp, hc, hpre, hlen]

/-- Witness for C5's amended theorem on prev="abcdef", curr="fgh". -/
theorem replDelta_small_fragment_witness :
    replDeltaByPrefix "abcdef".toList "fgh".toList =
      ("abcdef".toList ++ "fgh".toList, "fgh".toList) :=
  replDelta_small_fragment "abcdef".toList "fgh".toList
    (by decide) (by decide) (by decide) (by decide)

/-- A user message as carried in the Amazon Q body: content plus the
optional `images` list (`[]` models an absent or empty field); image
payloads are opaque. -/
structure UserMsg where
  content : List Char
  images : List Nat
  deriving DecidableEq, Repr

/-- One history entry: `{"userInputMessage": …}` or
`{"assistantResponseMessage": …}`. -/
inductive HistItem where
  | user (m : UserMsg)
  | assistant
  deriving DecidableEq, Repr

/-- `isinstance(user, dict) and user.get("images")`: a history entry that
is a user message with a truthy images list. -/
def isImgUser : HistItem → Bool
  | .user m => !m.images.isEmpty
  | .assistant => false

/-- `user.pop("images", None)` applied to an entry. -/
def clearImages : HistItem → HistItem
  | .user m => .user { m with images := [] }
  | .assistant => .assistant

/-- The `targets` list restricted to history: user messages with truthy
images, in order. -/
def imgUsers (history : List HistItem) : List HistItem :=
  history.filter isImgUser

/-- Clear the images of the first `n` image-carrying user messages of a
history (the other entries are untouched). -/
def clearFirstImgUsers : Nat → List HistItem → List HistItem
  | _, [] => []
  | 0, l => l
  | n + 1, item :: rest =>
    if isImgUser item then clearImages item :: clearFirstImgUsers n rest
    else item :: clearFirstImgUsers (n + 1) rest

/-- `_prune_images_to_last_two_user_messages` (src/integrations/claude/
converter.py lines 47-56 and src/integrations/replicate.py lines 601-610):
`targets` is the image-carrying history users followed by the current
message when it has images, and `for user in targets[:-2]: user.pop("images")`
clears exactly the first `len(targets) - 2` targets.  The current message
is the last target, hence never cleared; so the mutation clears the first
`len(targets) - 2` image-carrying users of the history and keeps the
current message intact. -/
def pruneImages (history : List HistItem) (cur : UserMsg) :
    List HistItem × UserMsg :=
  let nTargets := (imgUsers history).length + (if cur.images = [] then 0 else 1)
  (clearFirstImgUsers (nTargets - 2) history, cur)

/-- Clearing an entry's images makes it a non-target. -/
lemma isImgUser_clearImages (i : HistItem) : isImgUser (clearImages i) = false := by
  cases i <;> simp [isImgUser, clearImages]

/-- The image-carrying users surviving `clearFirstImgUsers n` are exactly
the targets after the first `n`. -/
lemma imgUsers_clearFirst (l : List HistItem) :
    ∀ n, imgUsers (clearFirstImgUsers n l) = (imgUsers l).drop n := by
  induction l with
  | nil => intro n; cases n <;> simp [clearFirstImgUsers, imgUsers]
  | cons item rest ih =>
    intro n
    cases n with
    | zero => simp [clearFirstImgUsers]
    | succ m =>
      by_cases h : isImgUser item = true
      · simp [clearFirstImgUsers, h, imgUsers, isImgUser_clearImages]
        exact ih m
      · simp only [Bool.not_eq_true] at h
        simp [clearFirstImgUsers, h, imgUsers]
        exact ih (m + 1)

/-- Every history entry is either untouched or merely image-cleared. -/
lemma clearFirst_pointwise (l : List HistItem) :
    ∀ n, List.Forall₂ (fun a b => b = a ∨ b = clearImages a) l
      (clearFirstImgUsers n l) := by
  induction l with
  | nil => intro n; cases n <;> exact List.Forall₂.nil
  | cons item rest ih =>
    intro n
    cases n with
    | zero =>
      exact List.forall₂_same.mpr (fun a _ => Or.inl rfl)
    | succ m =>
      by_cases h : isImgUser item = true
      · simp only [clearFirstImgUsers, if_pos h]
        exact List.Forall₂.cons (Or.inr rfl) (ih m)
      · simp only [clearFirstImgUsers, if_neg h]
        exact List.Forall₂.cons (Or.inl rfl) (ih (m + 1))

/-- C6: after pruning, at most two user messages (history plus current)
carry a non-empty images field; the surviving image-carrying history users
are exactly the last targets (all earlier ones have their images removed);
the current message is untouched; and no entry is otherwise modified. -/
theorem prune_images_spec (history : List HistItem) (cur : UserMsg) :
    ((imgUsers (pruneImages history cur).1).length +
      (if (pruneImages history cur).2.images = [] then 0 else 1) ≤ 2) ∧
    ((pruneImages history cur).2 = cur) ∧
    (imgUsers (pruneImages history cur).1 =
      (imgUsers history).drop
        ((imgUsers history).length + (if cur.images = [] then 0 else 1) - 2)) ∧
    List.Forall₂ (fun a b => b = a ∨ b = clearImages a) history
      (pruneImages history cur).1 := by
  have h1 := imgUsers_clearFirst history
    ((imgUsers history).length + (if cur.images = [] then 0 else 1) - 2)
  refine ⟨?_, rfl, h1, clearFirst_pointwise history _⟩
  rw [show (pruneImages history cur).2 = cur from rfl,
      show (pruneImages history cur).1 = clearFirstImgUsers
      ((imgUsers history).length + (if cur.images = [] then 0 else 1) - 2)
      history from rfl, h1, List.length_drop]
  by_cases hc : cur.images = [] <;> simp [hc] <;> omega

/-- Big-endian u32 from 4 bytes, `struct.unpack(">I",…)`. -/
def be32 (l : List Nat) : Nat :=
  l.foldl (fun a b => a * 256 + b) 0

/-- The `while True` loop body of `AwsEventStreamParser.feed`
(src/integrations/replicate.py lines 429-444), run to completion on a
buffer: emits the `(headers_raw, payload)` frames found at the front and
returns them with the unconsumed residue.  (`_parse_event_headers` is
applied pointwise to `headers_raw` in the source; frames here carry the
raw header bytes.)  A prelude is read once 12 bytes are available; a
malformed prelude (`total_len < 16 or headers_len > total_len`) pops one
byte and retries; an incomplete frame breaks; a complete frame is consumed:
`headers_raw = msg[12:12+headers_len]`, `payload = msg[12+headers_len:
total_len-4]`. -/
def processBuf (buf : List Nat) : List ((List Nat) × (List Nat)) × List Nat :=
  if h12 : buf.length < 12 then ([], buf)
  else if hmal : be32 (buf.take 4) < 16 ∨
      be32 ((buf.drop 4).take 4) > be32 (buf.take 4) then
    processBuf buf.tail
  else if buf.length < be32 (buf.take 4) then ([], buf)
  else
    let total_len := be32 (buf.take 4)
    let headers_len := be32 ((buf.drop 4).take 4)
    let r := processBuf (buf.drop total_len)
    ((((buf.take total_len).drop 12).take headers_len,
      ((buf.take total_len).take (total_len - 4)).drop (12 + headers_len)) :: r.1,
     r.2)
termination_by buf.length
decreasing_by
· simp_wf
  omega
· simp_wf
  push_neg at hmal
  omega

/-- `feed(data)` (src/integrations/replicate.py lines 424-444): empty data
returns no frames and leaves the buffer; otherwise the data is appended
and the loop runs. -/
def feed (buf data : List Nat) : List ((List Nat) × (List Nat)) × List Nat :=
  if data = [] then ([], buf)
  else processBuf (buf ++ data)

/-- Feeding a list of chunks in sequence, threading the parser buffer;
returns all emitted frames in order and the final buffer. -/
def feedMany (buf : List Nat) : List (List Nat) → List ((List Nat) × (List Nat)) × List Nat
  | [] => ([], buf)
  | c :: cs =>
    let r := feed buf c
    let r2 := feedMany r.2 cs
    (r.1 ++ r2.1, r2.2)

lemma processBuf_short (buf : List Nat) (h : buf.length < 12) :
    processBuf buf = ([], buf) := by
  unfold processBuf
  rw [dif_pos h]

lemma processBuf_malformed (buf : List Nat) (h12 : ¬ buf.length < 12)
    (hmal : be32 (buf.take 4) < 16 ∨
      be32 ((buf.drop 4).take 4) > be32 (buf.take 4)) :
    processBuf buf = processBuf buf.tail := by
  conv_lhs => rw [processBuf]
  rw [dif_neg h12, dif_pos hmal]

lemma processBuf_need_more (buf : List Nat) (h12 : ¬ buf.length < 12)
    (hmal : ¬ (be32 (buf.take 4) < 16 ∨
      be32 ((buf.drop 4).take 4) > be32 (buf.take 4)))
    (hlen : buf.length < be32 (buf.take 4)) :
    processBuf buf = ([], buf) := by
  conv_lhs => rw [processBuf]
  rw [dif_neg h12, dif_neg hmal, if_pos hlen]

lemma processBuf_consume (buf : List Nat) (h12 : ¬ buf.length < 12)
    (hmal : ¬ (be32 (buf.take 4) < 16 ∨
      be32 ((buf.drop 4).take 4) > be32 (buf.take 4)))
    (hlen : ¬ buf.length < be32 (buf.take 4)) :
    processBuf buf =
      ((((buf.take (be32 (buf.take 4))).drop 12).take (be32 ((buf.drop 4).take 4)),
        ((buf.take (be32 (buf.take 4))).take (be32 (buf.take 4) - 4)).drop
          (12 + be32 ((buf.drop 4).take 4))) ::
        (processBuf (buf.drop (be32 (buf.take 4)))).1,
       (processBuf (buf.drop (be32 (buf.take 4)))).2) := by
  conv_lhs => rw [processBuf]
  rw [dif_neg h12, dif_neg hmal, if_neg hlen]

/-- A residue left by the loop is stuck: running the loop on it again
emits nothing (the loop only breaks when it cannot make progress). -/
lemma processBuf_rest_stuck_aux : ∀ (n : Nat) (buf : List Nat), buf.length ≤ n →
    processBuf (processBuf buf).2 = ([], (processBuf buf).2) := by
  intro n
  induction n with
  | zero =>
    intro buf hb
    have hbe : buf = [] := List.eq_nil_of_length_eq_zero (Nat.le_zero.mp hb)
    subst hbe
    rw [processBuf_short [] (by simp)]
    simpa using processBuf_short [] (by simp)
  | succ m ih =>
    intro buf hb
    by_cases h12 : buf.length < 12
    · rw [processBuf_short buf h12]
      simpa using processBuf_short buf h12
    · by_cases hmal : be32 (buf.take 4) < 16 ∨
          be32 ((buf.drop 4).take 4) > be32 (buf.take 4)
      · rw [processBuf_malformed buf h12 hmal]
        exact ih buf.tail (by rw [List.length_tail]; omega)
      · by_cases hlen : buf.length < be32 (buf.take 4)
        · rw [processBuf_need_more buf h12 hmal hlen]
          simpa using processBuf_need_more buf h12 hmal hlen
        · rw [processBuf_consume buf h12 hmal hlen]
          have hr := ih (buf.drop (be32 (buf.take 4)))
            (by rw [List.length_drop]; push_neg at hmal; omega)
          simpa using hr

lemma processBuf_rest_stuck (buf : List Nat) :
    processBuf (processBuf buf).2 = ([], (processBuf buf).2) :=
  processBuf_rest_stuck_aux buf.length buf le_rfl

/-- Incrementality: parsing `buf ++ d` emits the frames of `buf` followed
by the frames obtained by resuming on the residue extended with `d`. -/
lemma processBuf_append_aux : ∀ (n : Nat) (buf : List Nat), buf.length ≤ n →
    ∀ (d : List Nat),
    processBuf (buf ++ d) =
      ((processBuf buf).1 ++ (processBuf ((processBuf buf).2 ++ d)).1,
       (processBuf ((processBuf buf).2 ++ d)).2) := by
  intro n
  induction n with
  | zero =>
    intro buf hb d
    have hbe : buf = [] := List.eq_nil_of_length_eq_zero (Nat.le_zero.mp hb)
    subst hbe
    rw [processBuf_short [] (by simp)]
    simp
  | succ m ih =>
    intro buf hb d
    by_cases h12 : buf.length < 12
    · rw [processBuf_short buf h12]
      simp
    · have ht4 : (buf ++ d).take 4 = buf.take 4 :=
        List.take_append_of_le_length (by omega)
      have hd4 : ((buf ++ d).drop 4).take 4 = (buf.drop 4).take 4 := by
        rw [List.drop_append_of_le_length (by omega)]
        exact List.take_append_of_le_length (by rw [List.length_drop]; omega)
      by_cases hmal : be32 (buf.take 4) < 16 ∨
          be32 ((buf.drop 4).take 4) > be32 (buf.take 4)
      · have h12' : ¬ (buf ++ d).length < 12 := by
          rw [List.length_append]; omega
        have hmal' : be32 ((buf ++ d).take 4) < 16 ∨
            be32 (((buf ++ d).drop 4).take 4) > be32 ((buf ++ d).take 4) := by
          rw [ht4, hd4]; exact hmal
        rw [processBuf_malformed (buf ++ d) h12' hmal',
            processBuf_malformed buf h12 hmal]
        have htail : (buf ++ d).tail = buf.tail ++ d := by
          rcases buf with _ | ⟨a, t⟩
          · simp at h12
          · simp
        rw [htail]
        exact ih buf.tail (by rw [List.length_tail]; omega) d
      · by_cases hlen : buf.length < be32 (buf.take 4)
        · rw [processBuf_need_more buf h12 hmal hlen]
          simp
        · have h12' : ¬ (buf ++ d).length < 12 := by
            rw [List.length_append]; omega
          have hmal' : ¬ (be32 ((buf ++ d).take 4) < 16 ∨
              be32 (((buf ++ d).drop 4).take 4) > be32 ((buf ++ d).take 4)) := by
            rw [ht4, hd4]; exact hmal
          have hlen' : ¬ (buf ++ d).length < be32 ((buf ++ d).take 4) := by
            rw [ht4, List.length_append]; omega
          rw [processBuf_consume (buf ++ d) h12' hmal' hlen',
              processBuf_consume buf h12 hmal hlen, ht4, hd4]
          have htake : (buf ++ d).take (be32 (buf.take 4)) =
              buf.take (be32 (buf.take 4)) :=
            List.take_append_of_le_length (by omega)
          have hdrop : (buf ++ d).drop (be32 (buf.take 4)) =
              buf.drop (be32 (buf.take 4)) ++ d :=
            List.drop_append_of_le_length (by omega)
          rw [htake, hdrop,
            ih (buf.drop (be32 (buf.take 4)))
              (by rw [List.length_drop]; push_neg at hmal; omega) d]
          simp

lemma processBuf_append (buf d : List Nat) :
    processBuf (buf ++ d) =
      ((processBuf buf).1 ++ (processBuf ((processBuf buf).2 ++ d)).1,
       (processBuf ((processBuf buf).2 ++ d)).2) :=
  processBuf_append_aux buf.length buf le_rfl d

/-- Feeding a chunk sequence from a stuck buffer equals parsing the
concatenation in one shot. -/
lemma feedMany_flatten : ∀ (chunks : List (List Nat)) (buf : List Nat),
    processBuf buf = ([], buf) →
    feedMany buf chunks = processBuf (buf ++ chunks.flatten) := by
  intro chunks
  induction chunks with
  | nil =>
    intro buf hstuck
    simp [feedMany, hstuck]
  | cons c cs ih =>
    intro buf hstuck
    by_cases hc : c = []
    · subst hc
      have hfeed : feed buf ([] : List Nat) = ([], buf) := by simp [feed]
      simp only [feedMany, hfeed]
      rw [ih buf hstuck]
      simp
    · simp only [feedMany, feed, if_neg hc]
      rw [ih _ (processBuf_rest_stuck (buf ++ c)), List.flatten_cons,
        ← List.append_assoc, processBuf_append (buf ++ c) cs.flatten]

/-- C7: feeding any chunking of a byte string to the parser (starting from
an empty buffer) yields the same frames and final residue as parsing the
whole string at once — so every split of the same bytes emits the same
concatenated `(headers, payload)` sequence, residue preserved across
calls; and whenever the 12-byte prelude at the head of the buffer is
malformed (`totalLen < 16` or `headersLen > totalLen`), the parser
discards exactly one byte and retries. -/
theorem event_stream_parser_spec :
    (∀ chunks : List (List Nat), feedMany [] chunks = processBuf chunks.flatten) ∧
    (∀ buf : List Nat, 12 ≤ buf.length →
      (be32 (buf.take 4) < 16 ∨ be32 ((buf.drop 4).take 4) > be32 (buf.take 4)) →
      processBuf buf = processBuf buf.tail) := by
  constructor
  · intro chunks
    have h := feedMany_flatten chunks [] (processBuf_short [] (by simp))
    simpa using h
  · intro buf hlen hmal
    exact processBuf_malformed buf (by omega) hmal

/-- Witness for C7: a buffer of twelve zero bytes has a malformed prelude
(`totalLen = 0 < 16`) and is retried after dropping one byte. -/
theorem event_stream_parser_spec_witness :
    processBuf (List.replicate 12 0) = processBuf (List.replicate 12 0).tail :=
  event_stream_parser_spec.2 (List.replicate 12 0) (by decide) (by decide)

/-- A JSON-serializable request body. -/
inductive Json where
  | null
  | bool (b : Bool)
  | num (n : Int)
  | str (s : List Char)
  | arr (items : List Json)
  | obj (fields : List (List Char × Json))

/-- Lexicographic (code-point) order on keys, as Python sorts strings. -/
def keyLe : List Char → List Char → Bool
  | [], _ => true
  | _ :: _, [] => false
  | a :: as, b :: bs =>
    if a.toNat < b.toNat then true
    else if b.toNat < a.toNat then false
    else keyLe as bs

def hexDigit (n : Nat) : Char :=
  if n < 10 then Char.ofNat (48 + n) else Char.ofNat (87 + n)

/-- Modelled from the external stdlib: `json.dumps` string escaping
(`ensure_ascii=False`). -/
def escChar (c : Char) : List Char :=
  if c = '"' then ['\\', '"']
  else if c = '\\' then ['\\', '\\']
  else if c = '\n' then ['\\', 'n']
  else if c = '\t' then ['\\', 't']
  else if c = '\r' then ['\\', 'r']
  else if c = Char.ofNat 8 then ['\\', 'b']
  else if c = Char.ofNat 12 then ['\\', 'f']
  else if c.toNat < 0x20 then
    ['\\', 'u', hexDigit (c.toNat / 4096 % 16), hexDigit (c.toNat / 256 % 16),
     hexDigit (c.toNat / 16 % 16), hexDigit (c.toNat % 16)]
  else [c]

def dumpKeyStr (k : List Char) : List Char :=
  '"' :: ((k.map escChar).flatten ++ ['"'])

/-- Insert a dumped `(key, rendered-entry)` pair in key order (Python dict
keys are unique, so stability for equal keys is immaterial). -/
def insertEntry (e : List Char × List Char) :
    List (List Char × List Char) → List (List Char × List Char)
  | [] => [e]
  | f :: fs => if keyLe e.1 f.1 then e :: f :: fs else f :: insertEntry e fs

def sortEntries : List (List Char × List Char) → List (List Char × List Char)
  | [] => []
  | e :: es => insertEntry e (sortEntries es)

def joinEntries : List (List Char × List Char) → List Char
  | [] => []
  | [e] => e.2
  | e :: f :: rest => e.2 ++ (", ".toList ++ joinEntries (f :: rest))

mutual
/-- Modelled from the external stdlib: the canonical serialization
`json.dumps(obj, ensure_ascii=False, sort_keys=True)` used by
`_short_json` (src/core/request_dedupe.py lines 58-64): default
separators `", "` and `": "`, keys sorted; sorting the rendered entries by
key equals sorting the fields before rendering. -/
def dumpJson : Json → List Char
  | .null => "null".toList
  | .bool true => "true".toList
  | .bool false => "false".toList
  | .num n => (toString n).toList
  | .str s => '"' :: ((s.map escChar).flatten ++ ['"'])
  | .arr items => '[' :: (dumpArr items ++ [']'])
  | .obj fields =>
    Char.ofNat 123 :: (joinEntries (sortEntries (dumpEntries fields)) ++ [Char.ofNat 125])

def dumpArr : List Json → List Char
  | [] => []
  | [x] => dumpJson x
  | x :: y :: rest => dumpJson x ++ (", ".toList ++ dumpArr (y :: rest))

def dumpEntries : List (List Char × Json) → List (List Char × List Char)
  | [] => []
  | (k, v) :: rest =>
    (k, dumpKeyStr k ++ (": ".toList ++ dumpJson v)) :: dumpEntries rest
end

/-- `_short_json` (src/core/request_dedupe.py lines 58-64) at the default
`limit = 4096`: the canonical serialization, truncated to its first 4096
characters when longer. -/
def short_json (obj : Json) : List Char :=
  let s := dumpJson obj
  if s.length ≤ 4096 then s else s.take 4096

/-- `fingerprint` (src/core/request_dedupe.py lines 67-69): the SHA-256
hex digest — the external `hashlib.sha256(…).hexdigest()` is the parameter
`sha256hex` — of the truncated canonical serialization of the body. -/
def fingerprint (sha256hex : List Char → List Char) (obj : Json) : List Char :=
  sha256hex (short_json obj)

lemma flatten_replicate_singleton (n : Nat) (c : Char) :
    (List.replicate n [c]).flatten = List.replicate n c := by
  induction n with
  | zero => simp
  | succ m ih => simp [List.replicate_succ, ih]

lemma dumpJson_str_replicate (n : Nat) :
    dumpJson (Json.str (List.replicate n 'a')) =
      '"' :: (List.replicate n 'a' ++ ['"']) := by
  have ha : escChar 'a' = ['a'] := by decide
  simp [dumpJson, List.map_replicate, ha, flatten_replicate_singleton]

lemma take_4096_quoted (m : Nat) (hm : 4096 ≤ m) :
    (('"' :: (List.replicate m 'a' ++ ['"'])).take 4096) =
      '"' :: List.replicate 4095 'a' := by
  rw [show (4096 : Nat) = 4095 + 1 from rfl, List.take_succ_cons,
      List.take_append_of_le_length (by rw [List.length_replicate]; omega),
      List.take_replicate, min_eq_left (by omega)]

/-- C8 counterexample: two bodies whose canonical serializations differ
only beyond 4096 characters share the truncated serialization, hence the
same fingerprint under any digest function — the fingerprint is not a
hash of the entire body. -/
theorem fingerprint_trunc_cex :
    short_json (Json.str (List.replicate 5000 'a')) =
      short_json (Json.str (List.replicate 6000 'a')) ∧
    dumpJson (Json.str (List.replicate 5000 'a')) ≠
      dumpJson (Json.str (List.replicate 6000 'a')) ∧
    fingerprint id (Json.str (List.replicate 5000 'a')) =
      fingerprint id (Json.str (List.replicate 6000 'a')) := by
  have h5 := dumpJson_str_replicate 5000
  have h6 := dumpJson_str_replicate 6000
  have hs : short_json (Json.str (List.replicate 5000 'a')) =
      short_json (Json.str (List.replicate 6000 'a')) := by
    have hlen5 : ¬ (('"' :: (List.replicate 5000 'a' ++ ['"'])).length ≤ 4096) := by
      simp only [List.length_cons, List.length_append, List.length_replicate]
      omega
    have hlen6 : ¬ (('"' :: (List.replicate 6000 'a' ++ ['"'])).length ≤ 4096) := by
      simp only [List.length_cons, List.length_append, List.length_replicate]
      omega
    simp only [short_json, h5, h6]
    rw [if_neg hlen5, if_neg hlen6,
        take_4096_quoted 5000 (by omega), take_4096_quoted 6000 (by omega)]
  refine ⟨hs, ?_, ?_⟩
  · intro h
    have hl := congrArg List.length h
    rw [h5, h6] at hl
    simp only [List.length_cons, List.length_append, List.length_replicate] at hl
    omega
  · simp only [fingerprint, id_eq, hs]

/-- C8 (amended): the fingerprint is the SHA-256 hex digest of the
canonical JSON serialization truncated to its first 4096 characters, so
equal canonical serializations give equal fingerprints (the converse fails
for bodies differing only beyond the truncation limit). -/
theorem fingerprint_spec (sha256hex : List Char → List Char)
    (obj obj2 : Json) :
    fingerprint sha256hex obj = sha256hex ((dumpJson obj).take 4096) ∧
    (dumpJson obj = dumpJson obj2 →
      fingerprint sha256hex obj = fingerprint sha256hex obj2) := by
  have hsj : ∀ o : Json, short_json o = (dumpJson o).take 4096 := by
    intro o
    simp only [short_json]
    by_cases h : (dumpJson o).length ≤ 4096
    · rw [if_pos h, List.take_of_length_le h]
    · rw [if_neg h]
  constructor
  · rw [fingerprint, hsj]
  · intro h
    rw [fingerprint, fingerprint, hsj, hsj, h]

/-- Witness for C8's amended theorem at a concrete body. -/
theorem fingerprint_spec_witness :
    fingerprint (fun s => s) Json.null =
      (fun s : List Char => s) ((dumpJson Json.null).take 4096) ∧
    fingerprint (fun s => s) Json.null = fingerprint (fun s => s) Json.null :=
  ⟨(fingerprint_spec (fun s => s) Json.null Json.null).1,
   (fingerprint_spec (fun s => s) Json.null Json.null).2 rfl⟩
